import Mathlib

/-!
Shallow embedding of `pricat.py` (EDIFACT PRICAT generator) and proofs about it.

Prices are Python `Decimal` values that are always quantized to exponent -2
(two fraction digits), so a validated price is represented here as its value
in cents (an `Int`).  Python's `Decimal` distinguishes `-0.00` from `0.00`;
the `Int` model identifies them (the sign of a zero never affects any
property proved below).
-/

/-- The decimal digit character for `n` (`0`-`9`); total, with `0` as the
(unreachable in our uses) fallback for `n ≥ 10`. -/
def digitChar : Nat → Char
  | 0 => '0' | 1 => '1' | 2 => '2' | 3 => '3' | 4 => '4'
  | 5 => '5' | 6 => '6' | 7 => '7' | 8 => '8' | 9 => '9'
  | _ => '0'

/-- Fuel-driven conversion of a natural number to its decimal digit list,
most significant digit first, prepended to `acc`. -/
def natToDigitsAux : Nat → Nat → List Char → List Char
  | 0, _, acc => acc
  | fuel + 1, n, acc =>
    if n < 10 then digitChar n :: acc
    else natToDigitsAux fuel (n / 10) (digitChar (n % 10) :: acc)

/-- Decimal digit list of `n`, most significant first (`n + 1` fuel always
suffices since `n < 10 ^ (n + 1)`). -/
def natToDigits (n : Nat) : List Char := natToDigitsAux (n + 1) n []

/-- Numeric value of a list of decimal digit characters. -/
def digitsToNat (ds : List Char) : Nat :=
  ds.foldl (fun a c => 10 * a + (c.toNat - 48)) 0

/-- Rendering of a quantized (exponent `-2`) Python `Decimal`, given in cents:
models both `str(price_decimal)` and the `f"{price:.2f}"` format used in the
segments (identical for exponent `-2` decimals). -/
def decToString (c : Int) : String :=
  let a := c.natAbs
  let r := a % 100
  let pad := if r < 10 then '0' :: natToDigits r else natToDigits r
  ⟨(if c < 0 then ['-'] else []) ++ natToDigits (a / 100) ++ '.' :: pad⟩

/-- Optional leading sign of a Python `Decimal` literal; returns the
negativity flag and the remaining characters. -/
def parseSign (cs : List Char) : Bool × List Char :=
  match cs with
  | [] => (false, [])
  | c :: rest =>
    if c = '-' then (true, rest)
    else if c = '+' then (false, rest)
    else (false, cs)

/-- Optional exponent part (`e`/`E`, optional sign, digits) of a `Decimal`
literal, combined with the mantissa `m` and fractional exponent `e`. -/
def parseExpPart (cs : List Char) (m : Nat) (e : Int) : Option (Nat × Int) :=
  match cs with
  | [] => some (m, e)
  | c :: rest =>
    if c = 'e' ∨ c = 'E' then
      let (eneg, rest2) := parseSign rest
      let ed := rest2.takeWhile Char.isDigit
      let rest3 := rest2.dropWhile Char.isDigit
      if ed.isEmpty ∨ !rest3.isEmpty then none
      else some (m, e + (if eneg then -(digitsToNat ed : Int) else (digitsToNat ed : Int)))
    else none

/-- Unsigned numeric part of a `Decimal` literal: digits, optional point,
optional fraction digits (at least one digit in total), optional exponent.
Returns mantissa and exponent: value is `m * 10 ^ e`. -/
def parseDecCore (cs : List Char) : Option (Nat × Int) :=
  let intd := cs.takeWhile Char.isDigit
  let rest := cs.dropWhile Char.isDigit
  match rest with
  | '.' :: rest2 =>
    let fracd := rest2.takeWhile Char.isDigit
    let rest3 := rest2.dropWhile Char.isDigit
    if intd.isEmpty ∧ fracd.isEmpty then none
    else parseExpPart rest3 (digitsToNat (intd ++ fracd)) (-(fracd.length : Int))
  | _ =>
    if intd.isEmpty then none
    else parseExpPart rest (digitsToNat intd) 0

/-- The finite-number grammar of Python's `Decimal(str(price))` constructor:
optional sign, digits with optional point and optional exponent.  Special
values (`NaN`, `Infinity`) are folded into the `none` case: for them, as for
unparseable text, the Python code ends in the same
`InvalidOperation -> "Invalid price value"` path (for the special values via
`quantize` raising rather than the constructor).  Two inessential
narrowings versus Python: surrounding whitespace and `_` digit grouping are
not modelled (both are accepted by `Decimal`); no output of the pipeline
contains either. -/
def parseDecimal (s : String) : Option (Bool × Nat × Int) :=
  let (neg, rest) := parseSign s.toList
  match parseDecCore rest with
  | none => none
  | some (m, e) => some (neg, m, e)

/-- Round `a / d` to the nearest integer, ties upward (the magnitude part of
`ROUND_HALF_UP`). -/
def roundHalfUpNat (a d : Nat) : Nat := (2 * a + d) / (2 * d)

/-- `Decimal.quantize(Decimal("0.01"), rounding=ROUND_HALF_UP)` on the parsed
value `± m * 10 ^ e`, returned in cents.  `ROUND_HALF_UP` rounds ties away
from zero, so the magnitude is rounded half-up and the sign reapplied. -/
def quantize2 (neg : Bool) (m : Nat) (e : Int) : Int :=
  let cents : Nat :=
    if 0 ≤ e + 2 then m * 10 ^ (e + 2).toNat
    else roundHalfUpNat m (10 ^ (-(e + 2)).toNat)
  if neg then -(cents : Int) else (cents : Int)

/-- `validate_price`: parse via `Decimal(str(price))`, quantize to two
fraction digits half-up, reject negatives.  The `10 ^ 28` bound models the
default decimal context precision of 28 significant digits: `quantize`
raises `InvalidOperation` (caught, yielding the same "Invalid price value"
failure) when the quantized coefficient would exceed it. -/
def validate_price (price : String) : Except String Int :=
  match parseDecimal price with
  | none => .error ("Invalid price value: " ++ price)
  | some (neg, m, e) =>
    let v := quantize2 neg m e
    if 10 ^ 28 ≤ v.natAbs then .error ("Invalid price value: " ++ price)
    else if v < 0 then .error "Price cannot be negative"
    else .ok v

/-- Python `str.upper()` restricted to the ASCII range actually exercised by
the EDIFACT version strings. -/
def upperStr (s : String) : String := ⟨s.toList.map Char.toUpper⟩

/-- The leading service-string-advice segment (`UNA_SEGMENT`). -/
def UNA_SEGMENT : String := "UNA:+.? \x27"

/-- Allowed ISO 4217 currency codes (`VALID_CURRENCIES`). -/
def VALID_CURRENCIES : List String := ["EUR", "USD", "GBP", "JPY"]

/-- Allowed party qualifiers (`VALID_QUALIFIERS`). -/
def VALID_QUALIFIERS : List String := ["BY", "SU", "SE"]

/-- `escape_edifact`: `text.replace("\x27", "?+")` - every apostrophe becomes
the two characters `?` and `+`. -/
def escape_edifact (text : String) : String :=
  ⟨(text.toList.map (fun c => if c = '\x27' then ['?', '+'] else [c])).flatten⟩

/-- A party dictionary: each key may be absent (`none`). -/
structure Party where
  qualifier : Option String
  id : Option String
deriving DecidableEq

/-- An item dictionary.  `price` is kept as the string `str(price)` that
`validate_price` parses; `quantity` is modelled as an integer (Python also
admits floats there, which no claim exercises). -/
structure Item where
  product_code : Option String
  description : Option String
  price : Option String
  quantity : Option Int
  unit : Option String
deriving DecidableEq

/-- The top-level input dictionary.  Only presence/absence of keys is
dynamic; present values carry the Python type the code expects (the
`isinstance` checks of `validate_data` are encoded in the field types). -/
structure PricatData where
  message_ref : Option String
  doc_code : Option String
  doc_number : Option String
  currency : Option String
  edifact_version : Option String
  parties : Option (List Party)
  items : Option (List Item)
deriving DecidableEq

/-- The regex `[A-Z]:\d\d[A-Z]:UN` anchored at both ends, applied to the
upper-cased version string. -/
def edifact_version_ok (s : String) : Bool :=
  match s.toList with
  | [a, ':', d1, d2, b, ':', 'U', 'N'] => a.isUpper && d1.isDigit && d2.isDigit && b.isUpper
  | _ => false

/-- The party loop of `validate_data`: first violation wins. -/
def validate_parties (vq : List String) : List Party → Except String Unit
  | [] => .ok ()
  | p :: rest =>
    match p.qualifier, p.id with
    | some q, some i =>
      if ¬ vq.contains q then .error ("Invalid party qualifier: " ++ q)
      else if i = "" then .error "Party ID must be a non-empty string"
      else validate_parties vq rest
    | _, _ => .error "Each party must have \x27qualifier\x27 and \x27id\x27"

/-- The item loop of `validate_data`: presence of the three required keys,
non-empty code and description, `validate_price`, positive quantity when
present; first violation wins. -/
def validate_items : List Item → Except String Unit
  | [] => .ok ()
  | it :: rest =>
    match it.product_code, it.description, it.price with
    | some pc, some d, some pr =>
      if pc = "" then .error "Product code must be a non-empty string"
      else if d = "" then .error "Description must be a non-empty string"
      else
        match validate_price pr with
        | .error e => .error e
        | .ok _ =>
          match it.quantity with
          | some q =>
            if q ≤ 0 then .error "Quantity must be a positive number"
            else validate_items rest
          | none => validate_items rest
    | _, _, _ => .error "Each item requires product_code, description, and price"

/-- `validate_data`: required fields in the fixed insertion order
(`message_ref`, `doc_code`, `doc_number`, `parties`, `items`,
`edifact_version`), empty-collection checks, version format, currency
allow-set (default `EUR`), then parties and items.  The allow-set repr that
Python appends to the currency message is not reproduced. -/
def validate_data (data : PricatData) (vq vc : List String) : Except String Unit :=
  match data.message_ref with
  | none => .error "Missing required field: message_ref"
  | some _ =>
  match data.doc_code with
  | none => .error "Missing required field: doc_code"
  | some _ =>
  match data.doc_number with
  | none => .error "Missing required field: doc_number"
  | some _ =>
  match data.parties with
  | none => .error "Missing required field: parties"
  | some parties =>
  if parties.isEmpty then .error "Field parties cannot be empty"
  else
  match data.items with
  | none => .error "Missing required field: items"
  | some items =>
  if items.isEmpty then .error "Field items cannot be empty"
  else
  match data.edifact_version with
  | none => .error "Missing required field: edifact_version"
  | some ever =>
  if ¬ edifact_version_ok (upperStr ever) then .error "Invalid EDIFACT version format"
  else
  if ¬ vc.contains (data.currency.getD "EUR") then
    .error ("Invalid currency code: " ++ data.currency.getD "EUR")
  else
  match validate_parties vq parties with
  | .error e => .error e
  | .ok () => validate_items items

/-- The two kinds of exception that can escape the encoder: a
`PRICATValidationError` (strict-mode item abort) or a `KeyError` from a
missing dictionary key. -/
inductive PError where
  | validation (msg : String)
  | keyError (key : String)
deriving DecidableEq

/-- Whether an encoder error is a `PRICATValidationError` (the strict-mode
item-failure abort) as opposed to a `KeyError`. -/
def PError.isValidation : PError → Bool
  | .validation _ => true
  | .keyError _ => false

/-- Dictionary access `data[key]`: raises `KeyError` when absent. -/
def getKey (v : Option α) (k : String) : Except PError α :=
  match v with
  | some x => .ok x
  | none => .error (.keyError k)

/-- The party loop of `generate_edi_segments`: one NAD segment per party, in
order; a missing key raises `KeyError` (this loop is outside any `try`). -/
def partySegs : List Party → Except PError (List String)
  | [] => .ok []
  | p :: rest =>
    match getKey p.qualifier "qualifier" with
    | .error e => .error e
    | .ok q =>
    match getKey p.id "id" with
    | .error e => .error e
    | .ok i =>
    match partySegs rest with
    | .error e => .error e
    | .ok segs => .ok (("NAD+" ++ q ++ "+" ++ i ++ "::91\x27") :: segs)

/-- The body of the per-item `try` block: price validation (`KeyError` on a
missing `price` key is caught there too), then description and product code
(both accessed inside the `try`), then the four fixed segments and the
optional QTY segment.  On failure the result is `str(e)` of the caught
exception - Python renders a `KeyError` as the quoted key name.  The segment
list is built in one expression, so a failure emits no partial segments. -/
def encode_item (index : Nat) (item : Item) : Except String (List String × Int) :=
  match item.price with
  | none => .error "\x27price\x27"
  | some pr =>
  match validate_price pr with
  | .error e => .error e
  | .ok price =>
  match item.description with
  | none => .error "\x27description\x27"
  | some d =>
  match item.product_code with
  | none => .error "\x27product_code\x27"
  | some pc =>
    let base := ["LIN+" ++ toString index ++ "++" ++ pc ++ ":EN\x27",
                 "IMD+F++:::" ++ escape_edifact d ++ "\x27",
                 "PRI+AAA:" ++ decToString price ++ ":UP\x27",
                 "PRI+AAB:" ++ decToString price ++ ":UP\x27"]
    match item.quantity with
    | some q =>
      .ok (base ++ ["QTY+47:" ++ toString q ++ ":" ++ item.unit.getD "PCE" ++ "\x27"], price)
    | none => .ok (base, price)

/-- The item loop of `generate_edi_segments`, from 1-based index `index`:
a failed item is skipped (lenient) or aborts with
`Invalid item {index}: {e}` (strict); accepted items contribute their
segments, price (into the running total) and one to the item count.
Skipped items still consume their `enumerate` index. -/
def encode_items (strict : Bool) : Nat → List Item → Except String (List String × Int × Nat)
  | _, [] => .ok ([], 0, 0)
  | index, it :: rest =>
    match encode_item index it with
    | .ok (segs, price) =>
      match encode_items strict (index + 1) rest with
      | .ok (segs2, total, count) => .ok (segs ++ segs2, price + total, count + 1)
      | .error e => .error e
    | .error e =>
      if strict then .error ("Invalid item " ++ toString index ++ ": " ++ e)
      else encode_items strict (index + 1) rest

/-- `generate_edi_segments`: the fixed header segments (UNA, UNH, BGM, DTM
with the supplied date string, CUX with the defaulted currency, RFF), the
party segments, then the item loop.  Returns the segment list, the running
total (in cents) and the item count. -/
def generate_edi_segments (today : String) (data : PricatData) (strict : Bool) :
    Except PError (List String × Int × Nat) :=
  match getKey data.message_ref "message_ref" with
  | .error e => .error e
  | .ok mref =>
  match getKey data.edifact_version "edifact_version" with
  | .error e => .error e
  | .ok ever =>
  match getKey data.doc_code "doc_code" with
  | .error e => .error e
  | .ok dcode =>
  match getKey data.doc_number "doc_number" with
  | .error e => .error e
  | .ok dnum =>
  match getKey data.parties "parties" with
  | .error e => .error e
  | .ok parties =>
  match partySegs parties with
  | .error e => .error e
  | .ok nadSegs =>
  match getKey data.items "items" with
  | .error e => .error e
  | .ok items =>
  match encode_items strict 1 items with
  | .error e => .error (.validation e)
  | .ok (itemSegs, total, count) =>
    .ok ([UNA_SEGMENT,
      "UNH+" ++ mref ++ "+PRICAT:" ++ upperStr ever ++ "\x27",
      "BGM+" ++ dcode ++ "+" ++ dnum ++ "+9\x27",
      "DTM+137:" ++ today ++ ":102\x27",
      "CUX+2:" ++ data.currency.getD "EUR" ++ ":9\x27",
      "RFF+ON:" ++ dnum ++ "\x27"] ++ nadSegs ++ itemSegs, total, count)

/-- The successful path of `generate_pricat`: validate, encode leniently
(`strict` is not passed, so it defaults to `False`), then append the MOA
total segment and the UNT trailer.  The UNT count `len(segments) - 1` is
evaluated before the two new segments are appended.  `none` models every
path on which `generate_pricat` returns the empty string. -/
def generate_pricat_segments (today : String) (data : PricatData) : Option (List String) :=
  match validate_data data VALID_QUALIFIERS VALID_CURRENCIES with
  | .error _ => none
  | .ok () =>
  match generate_edi_segments today data false with
  | .error _ => none
  | .ok (segments, total, _count) =>
    some (segments ++
      ["MOA+86:" ++ decToString total ++ ":" ++ data.currency.getD "EUR" ++ "\x27",
       "UNT+" ++ toString (segments.length - 1) ++ "+" ++ data.message_ref.getD "" ++ "\x27"])

/-- `generate_pricat`: the message text joined with newlines, paired with a
flag recording whether the file-persistence block is reached (on a
validation or encoding failure the function returns `""` before any file
handling). -/
def generate_pricat (today : String) (data : PricatData) : String × Bool :=
  match generate_pricat_segments today data with
  | none => ("", false)
  | some segs => (String.intercalate "\n" segs, true)

/-- Whether an item has a `price` key whose value `validate_price` accepts. -/
def priceOk (it : Item) : Bool :=
  match it.price with
  | none => false
  | some p =>
    match validate_price p with
    | .ok _ => true
    | .error _ => false

/-- Substring occurrence test (used to state that a failure message carries
the offending value). -/
def containsStr (hay needle : String) : Bool :=
  hay.toList.tails.any (fun t => needle.toList.isPrefixOf t)

/-! ### Concrete records used by the claim theorems -/

/-- A minimal record accepted by `validate_data`. -/
def c1data : PricatData :=
  ⟨some "MSG1", some "9", some "D1", none, some "D:96A:UN",
   some [⟨some "BY", some "B1"⟩],
   some [⟨some "P1", some "W", some "10.00", none, none⟩]⟩

/-- The message `generate_pricat` emits for `c1data` (date pinned). -/
def c1segs : List String :=
  ["UNA:+.? \x27", "UNH+MSG1+PRICAT:D:96A:UN\x27", "BGM+9+D1+9\x27",
   "DTM+137:20230101:102\x27", "CUX+2:EUR:9\x27", "RFF+ON:D1\x27",
   "NAD+BY+B1::91\x27", "LIN+1++P1:EN\x27", "IMD+F++:::W\x27",
   "PRI+AAA:10.00:UP\x27", "PRI+AAB:10.00:UP\x27",
   "MOA+86:10.00:EUR\x27", "UNT+10+MSG1\x27"]

/-- A record that is valid except that the `items` key is absent. -/
def c6data : PricatData :=
  ⟨some "MSG1", some "9", some "D1", some "EUR", some "D:96A:UN",
   some [⟨some "BY", some "B1"⟩], none⟩

/-- A record that is valid except that the `edifact_version` key is absent. -/
def c3data : PricatData :=
  ⟨some "MSG1", some "9", some "D1", some "EUR", none,
   some [⟨some "BY", some "B1"⟩],
   some [⟨some "P1", some "W", some "10.00", none, none⟩]⟩

/-- A second record without `edifact_version` (different shape from
`c3data`), used to instantiate the amended C3 theorem. -/
def c3data2 : PricatData :=
  ⟨some "MSG2", some "9", some "D2", none, none, some [⟨some "SU", some "S1"⟩],
   some [⟨some "P2", some "X", some "1.00", none, none⟩]⟩

/-- The item with an unparseable price used to instantiate C7. -/
def c7bad : Item := ⟨some "P1", some "W", some "abc", none, none⟩

/-- A well-formed item used to instantiate C7. -/
def c7good : Item := ⟨some "P2", some "X", some "2.50", none, none⟩

/-- A record without `message_ref`, on which the lenient encoder fails with
a `KeyError`; instantiates the universal half of C8. -/
def c8noref : PricatData := ⟨none, some "9", some "D", none, some "D:96A:UN",
  some [], some []⟩

/-- A record whose only flaw is an item with an unparseable price. -/
def c10data : PricatData :=
  ⟨some "MSG1", some "9", some "D1", some "EUR", some "D:96A:UN",
   some [⟨some "BY", some "B1"⟩],
   some [⟨some "P1", some "W", some "oops", none, none⟩]⟩

example : validate_price "1.005" = .ok 101 := rfl
example : validate_price "1.004" = .ok 100 := rfl
example : validate_price "-0.01" = .error "Price cannot be negative" := rfl
example : validate_price "125.99" = .ok 12599 := rfl
example : validate_price "abc" = .error "Invalid price value: abc" := rfl
example : validate_price "1e2" = .ok 10000 := rfl
example : validate_price "-1E-3" = .ok 0 := rfl
example : validate_price "-5e-1" = .error "Price cannot be negative" := rfl
example : validate_price ".5" = .ok 50 := rfl
example : validate_price "2." = .ok 200 := rfl
example : validate_price "." = .error "Invalid price value: ." := rfl
example : decToString 101 = "1.01" := rfl
example : decToString 12599 = "125.99" := rfl
example : decToString 0 = "0.00" := rfl
example : decToString 50 = "0.50" := rfl

/-! ### Digit-rendering and parsing lemmas -/

lemma digitChar_isDigit (m : Nat) : (digitChar m).isDigit = true := by
  rcases m with _|_|_|_|_|_|_|_|_|_|n <;> rfl

lemma digitChar_toNat (m : Nat) (h : m < 10) : (digitChar m).toNat = 48 + m := by
  interval_cases m <;> rfl

lemma digitsToNat_foldl (B : List Char) :
    ∀ a : Nat, B.foldl (fun x c => 10 * x + (c.toNat - 48)) a
      = a * 10 ^ B.length + digitsToNat B := by
  induction B with
  | nil => intro a; simp [digitsToNat]
  | cons c B ih =>
    intro a
    have h2 : digitsToNat (c :: B) = (c.toNat - 48) * 10 ^ B.length + digitsToNat B := by
      unfold digitsToNat
      rw [List.foldl_cons, ih]
      ring_nf
      rfl
    rw [List.foldl_cons, ih, h2, List.length_cons]
    ring

lemma digitsToNat_append (A B : List Char) :
    digitsToNat (A ++ B) = digitsToNat A * 10 ^ B.length + digitsToNat B := by
  unfold digitsToNat
  rw [List.foldl_append]
  exact digitsToNat_foldl B _

lemma natToDigitsAux_digitsToNat :
    ∀ (fuel : Nat), ∀ (n : Nat) (acc : List Char), n < 10 ^ fuel →
      digitsToNat (natToDigitsAux fuel n acc) = n * 10 ^ acc.length + digitsToNat acc := by
  intro fuel
  induction fuel with
  | zero =>
    intro n acc h
    interval_cases n
    simp [natToDigitsAux]
  | succ fuel ih =>
    intro n acc h
    rw [natToDigitsAux]
    split
    · rename_i h10
      have hcons : digitsToNat (digitChar n :: acc)
          = ((digitChar n).toNat - 48) * 10 ^ acc.length + digitsToNat acc := by
        unfold digitsToNat
        rw [List.foldl_cons, digitsToNat_foldl]
        ring_nf
        rfl
      rw [hcons, digitChar_toNat n h10,
          show 48 + n - 48 = n from by omega]
    · rename_i h10
      have hdiv : n / 10 < 10 ^ fuel := by
        apply Nat.div_lt_of_lt_mul
        calc n < 10 ^ (fuel + 1) := h
        _ = 10 ^ fuel * 10 := by rw [pow_succ]
        _ = 10 * 10 ^ fuel := by ring
      rw [ih (n / 10) _ hdiv]
      have hcons : digitsToNat (digitChar (n % 10) :: acc)
          = (n % 10) * 10 ^ acc.length + digitsToNat acc := by
        unfold digitsToNat
        rw [List.foldl_cons, digitsToNat_foldl, digitChar_toNat _ (Nat.mod_lt _ (by decide))]
        ring_nf
        rw [show 48 + n % 10 - 48 = n % 10 from by omega]
        rfl
      rw [List.length_cons, hcons]
      obtain ⟨q, r, hr, rfl⟩ : ∃ q r, r < 10 ∧ n = 10 * q + r :=
        ⟨n / 10, n % 10, Nat.mod_lt _ (by decide), (Nat.div_add_mod n 10).symm⟩
      rw [Nat.mul_add_div (by decide), Nat.mul_add_mod,
          Nat.div_eq_of_lt hr, Nat.mod_eq_of_lt hr, Nat.add_zero, pow_succ]
      ring

lemma digitsToNat_natToDigits (n : Nat) : digitsToNat (natToDigits n) = n := by
  have h := natToDigitsAux_digitsToNat (n + 1) n [] (by
    calc n < 2 ^ n := Nat.lt_two_pow n
    _ ≤ 10 ^ n := Nat.pow_le_pow_left (by decide) n
    _ ≤ 10 ^ (n + 1) := Nat.pow_le_pow_right (by decide) (Nat.le_succ n))
  simpa [natToDigits, digitsToNat] using h

lemma natToDigitsAux_all_digits :
    ∀ (fuel : Nat), ∀ (n : Nat) (acc : List Char), (∀ c ∈ acc, c.isDigit = true) →
      ∀ c ∈ natToDigitsAux fuel n acc, c.isDigit = true := by
  intro fuel
  induction fuel with
  | zero => intro n acc hacc; exact hacc
  | succ fuel ih =>
    intro n acc hacc c hc
    rw [natToDigitsAux] at hc
    split at hc
    · rcases List.mem_cons.mp hc with rfl | hc
      · exact digitChar_isDigit n
      · exact hacc c hc
    · refine ih (n / 10) _ ?_ c hc
      intro x hx
      rcases List.mem_cons.mp hx with rfl | hx
      · exact digitChar_isDigit _
      · exact hacc x hx

lemma natToDigits_all_digits (n : Nat) : ∀ c ∈ natToDigits n, c.isDigit = true :=
  natToDigitsAux_all_digits (n + 1) n [] (by simp)

lemma natToDigitsAux_eq_nil :
    ∀ (fuel : Nat), ∀ (n : Nat) (acc : List Char),
      natToDigitsAux fuel n acc = [] → acc = [] := by
  intro fuel
  induction fuel with
  | zero => intro n acc h; exact h
  | succ fuel ih =>
    intro n acc h
    rw [natToDigitsAux] at h
    split at h
    · exact absurd h (by simp)
    · have := ih (n / 10) _ h
      exact absurd this (by simp)

lemma natToDigits_ne_nil (n : Nat) : natToDigits n ≠ [] := by
  unfold natToDigits
  rw [natToDigitsAux]
  split
  · simp
  · intro h
    have := natToDigitsAux_eq_nil _ _ _ h
    exact absurd this (by simp)

lemma natToDigits_lt10 (n : Nat) (h : n < 10) : natToDigits n = [digitChar n] := by
  unfold natToDigits
  rw [natToDigitsAux, if_pos h]

lemma natToDigits_two (n : Nat) (h1 : 10 ≤ n) (h2 : n < 100) :
    natToDigits n = [digitChar (n / 10), digitChar (n % 10)] := by
  obtain ⟨m, rfl⟩ : ∃ m, n = m + 10 := ⟨n - 10, by omega⟩
  unfold natToDigits
  rw [natToDigitsAux, if_neg (by omega)]
  rw [show m + 10 = (m + 9) + 1 from rfl, natToDigitsAux, if_pos (by omega)]

lemma takeWhile_digits_append (xs ys : List Char) (c : Char) (hc : c.isDigit = false)
    (h : ∀ x ∈ xs, x.isDigit = true) :
    (xs ++ c :: ys).takeWhile Char.isDigit = xs ∧
    (xs ++ c :: ys).dropWhile Char.isDigit = c :: ys := by
  induction xs with
  | nil => simp [List.takeWhile_cons, List.dropWhile_cons, hc]
  | cons x xs ih =>
    have hx : x.isDigit = true := h x (by simp)
    have hr := ih (fun y hy => h y (by simp [hy]))
    simp [List.takeWhile_cons, List.dropWhile_cons, hx, hr.1, hr.2]

lemma takeWhile_digits_all (xs : List Char) (h : ∀ x ∈ xs, x.isDigit = true) :
    xs.takeWhile Char.isDigit = xs ∧ xs.dropWhile Char.isDigit = [] := by
  induction xs with
  | nil => simp
  | cons x xs ih =>
    have hx : x.isDigit = true := h x (by simp)
    have hr := ih (fun y hy => h y (by simp [hy]))
    simp [List.takeWhile_cons, List.dropWhile_cons, hx, hr.1, hr.2]

lemma parseSign_digit (c : Char) (rest : List Char) (hc : c.isDigit = true) :
    parseSign (c :: rest) = (false, c :: rest) := by
  have h1 : ¬ (c = '-') := by
    intro h; subst h; exact absurd hc (by decide)
  have h2 : ¬ (c = '+') := by
    intro h; subst h; exact absurd hc (by decide)
  simp [parseSign, h1, h2]

lemma pad_spec (r : Nat) (h : r < 100) :
    (if r < 10 then '0' :: natToDigits r else natToDigits r).length = 2 ∧
    digitsToNat (if r < 10 then '0' :: natToDigits r else natToDigits r) = r ∧
    (∀ c ∈ (if r < 10 then '0' :: natToDigits r else natToDigits r), c.isDigit = true) := by
  by_cases h10 : r < 10
  · rw [if_pos h10, natToDigits_lt10 r h10]
    refine ⟨rfl, ?_, ?_⟩
    · simp only [digitsToNat, List.foldl_cons, List.foldl_nil, digitChar_toNat r h10,
        show '0'.toNat = 48 from rfl]
      omega
    · intro c hc
      rcases List.mem_cons.mp hc with rfl | hc
      · decide
      · rcases List.mem_cons.mp hc with rfl | hc
        · exact digitChar_isDigit r
        · exact absurd hc (by simp)
  · rw [if_neg h10, natToDigits_two r (by omega) h]
    refine ⟨rfl, ?_, ?_⟩
    · simp only [digitsToNat, List.foldl_cons, List.foldl_nil,
        digitChar_toNat (r / 10) (by omega), digitChar_toNat (r % 10) (by omega)]
      omega
    · intro c hc
      rcases List.mem_cons.mp hc with rfl | hc
      · exact digitChar_isDigit _
      · rcases List.mem_cons.mp hc with rfl | hc
        · exact digitChar_isDigit _
        · exact absurd hc (by simp)

lemma parseDecCore_digits (D P : List Char) (hD : ∀ x ∈ D, x.isDigit = true)
    (hP : ∀ x ∈ P, x.isDigit = true) (hne : D ≠ []) :
    parseDecCore (D ++ '.' :: P) = some (digitsToNat (D ++ P), -(P.length : Int)) := by
  have htake := takeWhile_digits_append D P '.' (by decide) hD
  have hfrac := takeWhile_digits_all P hP
  have hDempty : D.isEmpty = false := by
    cases D with
    | nil => exact absurd rfl hne
    | cons d D => rfl
  unfold parseDecCore
  simp only [htake.1, htake.2, hfrac.1, hfrac.2, hDempty]
  rw [if_neg (by simp)]
  unfold parseExpPart
  rfl

lemma parseDecimal_decToString (c : Int) (h0 : 0 ≤ c) :
    parseDecimal (decToString c) = some (false, c.toNat, -2) := by
  have hnotlt : ¬ (c < 0) := not_lt.mpr h0
  set a := c.natAbs with ha
  set pad := if a % 100 < 10 then '0' :: natToDigits (a % 100) else natToDigits (a % 100)
    with hpaddef
  obtain ⟨hplen, hpval, hpdig⟩ := pad_spec (a % 100) (Nat.mod_lt _ (by decide))
  have hlist : (decToString c).toList = natToDigits (a / 100) ++ '.' :: pad := by
    simp only [decToString, String.toList, ← ha, ← hpaddef, if_neg hnotlt, List.nil_append]
  obtain ⟨d, D, hD⟩ : ∃ d D, natToDigits (a / 100) = d :: D := by
    cases hnd : natToDigits (a / 100) with
    | nil => exact absurd hnd (natToDigits_ne_nil _)
    | cons d D => exact ⟨d, D, rfl⟩
  have hDdig : ∀ x ∈ natToDigits (a / 100), x.isDigit = true := natToDigits_all_digits _
  have hddig : d.isDigit = true := hDdig d (by rw [hD]; simp)
  have hsign : parseSign (natToDigits (a / 100) ++ '.' :: pad)
      = (false, natToDigits (a / 100) ++ '.' :: pad) := by
    rw [hD, List.cons_append]
    exact parseSign_digit d (D ++ '.' :: pad) hddig
  have hcore := parseDecCore_digits (natToDigits (a / 100)) pad hDdig hpdig
    (natToDigits_ne_nil _)
  unfold parseDecimal
  rw [hlist, hsign]
  dsimp only
  rw [hcore]
  rw [digitsToNat_append, hplen, hpval, digitsToNat_natToDigits]
  have hval : a / 100 * 10 ^ 2 + a % 100 = a := by omega
  rw [hval]
  have hac : a = c.toNat := by omega
  rw [hac]
  dsimp only
  norm_num

lemma validate_price_decToString (c : Int) (h0 : 0 ≤ c) (h28 : c.natAbs < 10 ^ 28) :
    validate_price (decToString c) = .ok c := by
  unfold validate_price
  rw [parseDecimal_decToString c h0]
  have hq : quantize2 false c.toNat (-2) = c := by
    unfold quantize2
    norm_num
    omega
  simp only [hq]
  rw [if_neg (not_le.mpr h28), if_neg (not_lt.mpr h0)]

lemma validate_price_ok_bounds (p : String) (c : Int) (h : validate_price p = .ok c) :
    0 ≤ c ∧ c.natAbs < 10 ^ 28 := by
  unfold validate_price at h
  cases hp : parseDecimal p with
  | none => rw [hp] at h; exact absurd h (by simp)
  | some v =>
    obtain ⟨neg, m, e⟩ := v
    rw [hp] at h
    simp only at h
    split at h
    · exact absurd h (by simp)
    · split at h
      · exact absurd h (by simp)
      · rename_i h1 h2
        have hc : quantize2 neg m e = c := by
          injection h
        rw [hc] at h1 h2
        exact ⟨not_lt.mp h2, not_le.mp h1⟩

/-! ### Claim C5 -/

/-- C5: for every price value `p ≥ 0` that `validate_price` accepts (result
`c`, a two-fraction-digit decimal), re-validating the accepted value - whose
`str()` rendering is `decToString c` - yields the same result, i.e.
`validate_price` is idempotent on its accepted values. -/
theorem claim_C5_price_idempotent (p : String) (c : Int)
    (h : validate_price p = .ok c) :
    validate_price (decToString c) = .ok c := by
  obtain ⟨h0, h28⟩ := validate_price_ok_bounds p c h
  exact validate_price_decToString c h0 h28

/-- Witness for C5 at the concrete accepted price `"1.005"`. -/
theorem claim_C5_witness :
    validate_price "1.005" = .ok 101 ∧ validate_price (decToString 101) = .ok 101 :=
  ⟨rfl, claim_C5_price_idempotent "1.005" 101 rfl⟩

/-! ### Claim C4 -/

/-- C4 counterexample: `validate_price "-0.01"` does raise the
price-violation failure, but its message is `Price cannot be negative`,
which does not carry the offending value `-0.01`; the claim's "carrying the
offending value" is false for the negative-price branch. -/
theorem claim_C4_counterexample :
    validate_price "-0.01" = .error "Price cannot be negative" ∧
    containsStr "Price cannot be negative" "-0.01" = false :=
  ⟨rfl, rfl⟩

/-- C4 (amended): `validate_price` rounds to exactly 2 fraction digits using
round-half-up (`"1.005"` to `1.01`, `"1.004"` to `1.00`) and rejects
negatives, `"-0.01"` raising the price-violation failure with the fixed
message `Price cannot be negative` (the offending value is carried only by
the unparseable-input failure). -/
theorem claim_C4_price_rounding :
    validate_price "1.005" = .ok 101 ∧ decToString 101 = "1.01" ∧
    validate_price "1.004" = .ok 100 ∧ decToString 100 = "1.00" ∧
    validate_price "-0.01" = .error "Price cannot be negative" ∧
    validate_price "abc" = .error "Invalid price value: abc" ∧
    containsStr "Invalid price value: abc" "abc" = true :=
  ⟨rfl, rfl, rfl, rfl, rfl, rfl, rfl⟩

/-! ### Claim C2 -/

/-- C2: `escape_edifact` replaces the segment terminator (apostrophe) by
`?+` - the release character followed by the ELEMENT SEPARATOR `+` - not by
the release character followed by the terminator (`?` then apostrophe) that
the claim states; evaluated at the failing input, a lone apostrophe. -/
theorem claim_C2_escape_bug :
    escape_edifact "\x27" = "?+" ∧ "?+" ≠ "?\x27" ∧
    escape_edifact "a\x27b" = "a?+b" :=
  ⟨rfl, by decide, rfl⟩

/-! ### Claim C1 -/

/-- C1 is false of the code: on the accepted record `c1data` the emitted
message has 13 segments, hence 12 segments excluding the service-string
advice (UNA), but the UNT trailer carries the count 10 - the
`len(segments) - 1` is computed before the MOA and UNT segments are
appended, so those two are never counted. -/
theorem claim_C1_unt_count_bug :
    generate_pricat_segments "20230101" c1data = some c1segs ∧
    c1segs.getLast? = some "UNT+10+MSG1\x27" ∧
    c1segs.length - 1 = 12 :=
  ⟨rfl, rfl, rfl⟩

/-! ### Validation inversion -/

lemma validate_data_ok (d : PricatData) (vq vc : List String)
    (h : validate_data d vq vc = .ok ()) :
    ∃ mref dcode dnum parties items ever,
      d.message_ref = some mref ∧ d.doc_code = some dcode ∧ d.doc_number = some dnum ∧
      d.parties = some parties ∧ d.items = some items ∧ d.edifact_version = some ever ∧
      validate_parties vq parties = .ok () ∧ validate_items items = .ok () := by
  unfold validate_data at h
  split at h
  · exact absurd h (by simp)
  rename_i mref hmref
  split at h
  · exact absurd h (by simp)
  rename_i dcode hdcode
  split at h
  · exact absurd h (by simp)
  rename_i dnum hdnum
  split at h
  · exact absurd h (by simp)
  rename_i parties hparties
  split at h
  · exact absurd h (by simp)
  rename_i hpne
  split at h
  · exact absurd h (by simp)
  rename_i items hitems
  split at h
  · exact absurd h (by simp)
  rename_i hine
  split at h
  · exact absurd h (by simp)
  rename_i ever hever
  split at h
  · exact absurd h (by simp)
  rename_i hverok
  split at h
  · exact absurd h (by simp)
  rename_i hcur
  split at h
  · exact absurd h (by simp)
  rename_i hpok
  exact ⟨mref, dcode, dnum, parties, items, ever,
    hmref, hdcode, hdnum, hparties, hitems, hever, hpok, h⟩

lemma generate_pricat_empty_of_not_ok (t : String) (d : PricatData)
    (h : validate_data d VALID_QUALIFIERS VALID_CURRENCIES ≠ .ok ()) :
    generate_pricat t d = ("", false) := by
  rcases hval : validate_data d VALID_QUALIFIERS VALID_CURRENCIES with e | u
  · unfold generate_pricat generate_pricat_segments
    rw [hval]
  · cases u
    exact absurd hval h

/-! ### Claim C6 -/

/-- C6: a record missing any of the required top-level fields
`message_ref`, `doc_code`, `doc_number`, `parties`, `items` makes
`generate_pricat` return the empty string with the file-persistence block
never reached: validation aborts before any encoding or file handling. -/
theorem claim_C6_missing_field_empty_output (t : String) (d : PricatData)
    (h : d.message_ref = none ∨ d.doc_code = none ∨ d.doc_number = none ∨
         d.parties = none ∨ d.items = none) :
    generate_pricat t d = ("", false) := by
  apply generate_pricat_empty_of_not_ok
  intro hok
  obtain ⟨m, dc, dn, ps, its, ev, hm, hdc, hdn, hps, hits, _, _, _⟩ :=
    validate_data_ok _ _ _ hok
  rcases h with h | h | h | h | h <;> simp_all

/-- Witness for C6: the concrete record missing `items` yields empty output
and no file write. -/
theorem claim_C6_witness : generate_pricat "20230101" c6data = ("", false) :=
  claim_C6_missing_field_empty_output "20230101" c6data
    (Or.inr (Or.inr (Or.inr (Or.inr rfl))))

/-! ### Claim C3 -/

/-- C3 counterexample: on an otherwise-valid record that omits
`edifact_version`, validation DOES fail on the absent field (it is in the
required-field list) and `generate_pricat` returns the empty string - no
UNH segment containing the claimed default `PRICAT:D:96A:UN` is ever
emitted, because no default version exists in the code. -/
theorem claim_C3_counterexample :
    validate_data c3data VALID_QUALIFIERS VALID_CURRENCIES =
      .error "Missing required field: edifact_version" ∧
    generate_pricat "20230101" c3data = ("", false) :=
  ⟨rfl, rfl⟩

/-- C3 (amended): `edifact_version` is a required field with no default:
every record that omits it fails validation and `generate_pricat` returns
the empty string (only `currency` is defaulted, to `EUR`). -/
theorem claim_C3_version_required (t : String) (d : PricatData)
    (h : d.edifact_version = none) :
    generate_pricat t d = ("", false) := by
  apply generate_pricat_empty_of_not_ok
  intro hok
  obtain ⟨m, dc, dn, ps, its, ev, _, _, _, _, _, hev, _, _⟩ :=
    validate_data_ok _ _ _ hok
  simp_all

/-- Witness for the amended C3 theorem at a concrete record. -/
theorem claim_C3_witness : generate_pricat "20230101" c3data2 = ("", false) :=
  claim_C3_version_required "20230101" c3data2 rfl

/-! ### Claim C7 -/

/-- C7: when the per-item `try` body fails for an item (result of
`encode_item` is an error), lenient mode emits no segment at all for it,
leaves the running total and the item count untouched and continues with
the remaining items (only the `enumerate` index advances), while strict
mode aborts the whole encode with a failure naming that item's index. -/
theorem claim_C7_item_failure_modes (i : Nat) (bad : Item) (rest : List Item)
    (e : String) (h : encode_item i bad = .error e) :
    encode_items false i (bad :: rest) = encode_items false (i + 1) rest ∧
    encode_items true i (bad :: rest) =
      .error ("Invalid item " ++ toString i ++ ": " ++ e) := by
  refine ⟨?_, ?_⟩ <;> (rw [encode_items, h]; rfl)

/-- Witness for C7: at the failing item `c7bad` (price `"abc"`), lenient
mode yields exactly the encoding of the remaining list, strict mode the
indexed abort. -/
theorem claim_C7_witness :
    encode_items false 1 [c7bad, c7good] = encode_items false 2 [c7good] ∧
    encode_items true 1 [c7bad, c7good] =
      .error "Invalid item 1: Invalid price value: abc" :=
  claim_C7_item_failure_modes 1 c7bad [c7good] "Invalid price value: abc" rfl

/-! ### Claim C8 -/

lemma getKey_error {α : Type} (v : Option α) (k : String) (e : PError)
    (h : getKey v k = .error e) : e = .keyError k := by
  unfold getKey at h
  split at h
  · exact absurd h (by simp)
  · injection h with h
    exact h.symm

lemma partySegs_error_keyError (ps : List Party) :
    ∀ e, partySegs ps = .error e → e.isValidation = false := by
  induction ps with
  | nil => intro e h; exact absurd h (by simp [partySegs])
  | cons p rest ih =>
    intro e h
    unfold partySegs at h
    split at h
    · rename_i e1 he1
      injection h with h
      subst h
      rw [getKey_error _ _ _ he1]
      rfl
    · split at h
      · rename_i e2 he2
        injection h with h
        subst h
        rw [getKey_error _ _ _ he2]
        rfl
      · split at h
        · rename_i e3 he3
          injection h with h
          subst h
          exact ih _ he3
        · exact absurd h (by simp)

lemma encode_items_lenient_ok (its : List Item) :
    ∀ i, ∃ r, encode_items false i its = .ok r := by
  induction its with
  | nil => intro i; exact ⟨_, rfl⟩
  | cons it rest ih =>
    intro i
    unfold encode_items
    cases he : encode_item i it with
    | ok v =>
      obtain ⟨r, hr⟩ := ih (i + 1)
      rw [hr]
      exact ⟨_, rfl⟩
    | error e =>
      obtain ⟨r, hr⟩ := ih (i + 1)
      exact ⟨r, hr⟩

lemma encode_items_lenient_ne_error (its : List Item) (i : Nat) (e : String) :
    encode_items false i its ≠ .error e := by
  obtain ⟨r, hr⟩ := encode_items_lenient_ok its i
  rw [hr]
  simp

/-- C8: through `generate_pricat` the encoder runs only with
`strict = False` (the Python call site passes no `strict` argument), so the
strict item-failure abort is unreachable there: every error the lenient
encoder can produce is a `KeyError`, never a `PRICATValidationError`; the
strict abort is reachable only by calling `generate_edi_segments` directly
with `strict = True`. -/
theorem claim_C8_strict_unreachable :
    (∀ t d e, generate_edi_segments t d false = .error e → e.isValidation = false) ∧
    (∃ t d e, generate_edi_segments t d true = .error e ∧ e.isValidation = true) := by
  constructor
  · intro t d e h
    unfold generate_edi_segments at h
    split at h
    · rename_i e1 he1
      injection h with h
      subst h
      rw [getKey_error _ _ _ he1]
      rfl
    split at h
    · rename_i e1 he1
      injection h with h
      subst h
      rw [getKey_error _ _ _ he1]
      rfl
    split at h
    · rename_i e1 he1
      injection h with h
      subst h
      rw [getKey_error _ _ _ he1]
      rfl
    split at h
    · rename_i e1 he1
      injection h with h
      subst h
      rw [getKey_error _ _ _ he1]
      rfl
    split at h
    · rename_i e1 he1
      injection h with h
      subst h
      rw [getKey_error _ _ _ he1]
      rfl
    split at h
    · rename_i e1 he1
      injection h with h
      subst h
      exact partySegs_error_keyError _ _ he1
    split at h
    · rename_i e1 he1
      injection h with h
      subst h
      rw [getKey_error _ _ _ he1]
      rfl
    split at h
    · rename_i e1 he1
      exact absurd he1 (encode_items_lenient_ne_error _ _ _)
    · exact absurd h (by simp)
  · exact ⟨"20230101", ⟨some "M", some "9", some "D", none, some "D:96A:UN",
      some [], some [⟨some "P", some "W", some "bad", none, none⟩]⟩,
      .validation "Invalid item 1: Invalid price value: bad", rfl, rfl⟩

/-- Witness for C8 at a concrete lenient-encoder failure. -/
theorem claim_C8_witness :
    PError.isValidation (PError.keyError "message_ref") = false :=
  claim_C8_strict_unreachable.1 "20230101" c8noref (PError.keyError "message_ref") rfl

/-! ### Claim C9 -/

/-- C9: escaping is applied only to the item description.  For a generic
record, every other textual field - message reference, document code and
number, party qualifier and id, product code, quantity, unit - is emitted
verbatim (in particular any terminator character in it survives unescaped),
while the description reaches its segment only through `escape_edifact`. -/
theorem claim_C9_escaping_only_description
    (t m dc dn cu ev q pid pc dsc pr un : String) (qn : Int) (c : Int)
    (h : validate_price pr = .ok c) :
    generate_edi_segments t
      ⟨some m, some dc, some dn, some cu, some ev,
       some [⟨some q, some pid⟩],
       some [⟨some pc, some dsc, some pr, some qn, some un⟩]⟩ false =
    .ok ([UNA_SEGMENT,
      "UNH+" ++ m ++ "+PRICAT:" ++ upperStr ev ++ "\x27",
      "BGM+" ++ dc ++ "+" ++ dn ++ "+9\x27",
      "DTM+137:" ++ t ++ ":102\x27",
      "CUX+2:" ++ cu ++ ":9\x27",
      "RFF+ON:" ++ dn ++ "\x27",
      "NAD+" ++ q ++ "+" ++ pid ++ "::91\x27",
      "LIN+1++" ++ pc ++ ":EN\x27",
      "IMD+F++:::" ++ escape_edifact dsc ++ "\x27",
      "PRI+AAA:" ++ decToString c ++ ":UP\x27",
      "PRI+AAB:" ++ decToString c ++ ":UP\x27",
      "QTY+47:" ++ toString qn ++ ":" ++ un ++ "\x27"], c, 1) := by
  unfold generate_edi_segments getKey partySegs encode_items encode_item
  dsimp only
  rw [h]
  simp [getKey, partySegs, encode_items]
  rfl

/-- Witness for C9: terminator characters placed in every non-description
field come out verbatim; the description's terminator is escaped (to the
erroneous `?+`, see C2). -/
theorem claim_C9_witness :
    generate_edi_segments "2\x270" ⟨some "M\x27R", some "9\x27", some "D\x271",
      some "EU\x27", some "D:96A:UN", some [⟨some "B\x27Y", some "I\x27D"⟩],
      some [⟨some "P\x27C", some "a\x27b", some "1.00", some 7, some "K\x27G"⟩]⟩
      false =
    .ok (["UNA:+.? \x27",
      "UNH+M\x27R+PRICAT:D:96A:UN\x27",
      "BGM+9\x27+D\x271+9\x27",
      "DTM+137:2\x270:102\x27",
      "CUX+2:EU\x27:9\x27",
      "RFF+ON:D\x271\x27",
      "NAD+B\x27Y+I\x27D::91\x27",
      "LIN+1++P\x27C:EN\x27",
      "IMD+F++:::a?+b\x27",
      "PRI+AAA:1.00:UP\x27",
      "PRI+AAB:1.00:UP\x27",
      "QTY+47:7:K\x27G\x27"], 100, 1) :=
  claim_C9_escaping_only_description "2\x270" "M\x27R" "9\x27" "D\x271" "EU\x27"
    "D:96A:UN" "B\x27Y" "I\x27D" "P\x27C" "a\x27b" "1.00" "K\x27G" 7 100 rfl

/-! ### Claim C10 -/

lemma validate_items_cons (a : Item) (rest : List Item)
    (h : validate_items (a :: rest) = .ok ()) :
    (∃ pc, a.product_code = some pc) ∧ (∃ d, a.description = some d) ∧
    (∃ pr c, a.price = some pr ∧ validate_price pr = .ok c) ∧
    validate_items rest = .ok () := by
  unfold validate_items at h
  split at h
  · rename_i pc d pr hpc hd hpr
    split at h
    · exact absurd h (by simp)
    split at h
    · exact absurd h (by simp)
    split at h
    · exact absurd h (by simp)
    rename_i c hc
    split at h
    · rename_i q hq
      split at h
      · exact absurd h (by simp)
      exact ⟨⟨pc, hpc⟩, ⟨d, hd⟩, ⟨pr, c, hpr, hc⟩, h⟩
    · exact ⟨⟨pc, hpc⟩, ⟨d, hd⟩, ⟨pr, c, hpr, hc⟩, h⟩
  · exact absurd h (by simp)

lemma validate_items_priceOk (its : List Item) (h : validate_items its = .ok ()) :
    ∀ it ∈ its, priceOk it = true := by
  induction its with
  | nil => intro it hit; exact absurd hit (by simp)
  | cons a rest ih =>
    obtain ⟨_, _, ⟨pr, c, hpr, hc⟩, hrest⟩ := validate_items_cons a rest h
    intro it hit
    rcases List.mem_cons.mp hit with rfl | hit
    · simp [priceOk, hpr, hc]
    · exact ih hrest it hit

lemma encode_item_ok (i : Nat) (a : Item) (pc d pr : String) (c : Int)
    (hpc : a.product_code = some pc) (hd : a.description = some d)
    (hpr : a.price = some pr) (hc : validate_price pr = .ok c) :
    ∃ segs, encode_item i a = .ok (segs, c) := by
  unfold encode_item
  rw [hpr]
  dsimp only
  rw [hc]
  dsimp only
  rw [hd]
  dsimp only
  rw [hpc]
  dsimp only
  cases hq : a.quantity with
  | none => exact ⟨_, rfl⟩
  | some q => exact ⟨_, rfl⟩

lemma encode_items_of_validate (its : List Item) (h : validate_items its = .ok ()) :
    ∀ i, ∃ segs total, encode_items false i its = .ok (segs, total, its.length) := by
  induction its with
  | nil => intro i; exact ⟨[], 0, rfl⟩
  | cons a rest ih =>
    intro i
    obtain ⟨⟨pc, hpc⟩, ⟨d, hd⟩, ⟨pr, c, hpr, hc⟩, hrest⟩ := validate_items_cons a rest h
    obtain ⟨segs1, hitem⟩ := encode_item_ok i a pc d pr c hpc hd hpr hc
    obtain ⟨segs2, total2, h2⟩ := ih hrest (i + 1)
    refine ⟨segs1 ++ segs2, c + total2, ?_⟩
    rw [encode_items, hitem, h2]
    rfl

lemma validate_parties_cons (vq : List String) (p : Party) (rest : List Party)
    (h : validate_parties vq (p :: rest) = .ok ()) :
    (∃ q, p.qualifier = some q) ∧ (∃ i, p.id = some i) ∧
    validate_parties vq rest = .ok () := by
  unfold validate_parties at h
  split at h
  · rename_i q i hq hi
    split at h
    · exact absurd h (by simp)
    split at h
    · exact absurd h (by simp)
    exact ⟨⟨q, hq⟩, ⟨i, hi⟩, h⟩
  · exact absurd h (by simp)

lemma partySegs_of_validate (vq : List String) (ps : List Party)
    (h : validate_parties vq ps = .ok ()) :
    ∃ segs, partySegs ps = .ok segs := by
  induction ps with
  | nil => exact ⟨[], rfl⟩
  | cons p rest ih =>
    obtain ⟨⟨q, hq⟩, ⟨i, hi⟩, hrest⟩ := validate_parties_cons vq p rest h
    obtain ⟨segs, hsegs⟩ := ih hrest
    refine ⟨("NAD+" ++ q ++ "+" ++ i ++ "::91\x27") :: segs, ?_⟩
    unfold partySegs getKey
    rw [hq, hi]
    dsimp only
    rw [hsegs]

/-- C10: through `generate_pricat`, the lenient per-item skip path is
unreachable.  First half: a record containing an item with a missing or
invalid price (`priceOk = false`) never reaches the encoder -
`generate_pricat` returns the empty string with no file write.  Second
half: a record that passes validation has every item encoded - the item
count returned by the (lenient) encoder equals the number of items. -/
theorem claim_C10_skip_path_unreachable (t : String) (d : PricatData)
    (items : List Item) (hitems : d.items = some items) :
    ((∃ it ∈ items, priceOk it = false) → generate_pricat t d = ("", false)) ∧
    (validate_data d VALID_QUALIFIERS VALID_CURRENCIES = .ok () →
      ∃ segs total, generate_edi_segments t d false = .ok (segs, total, items.length)) := by
  constructor
  · rintro ⟨bad, hmem, hbad⟩
    apply generate_pricat_empty_of_not_ok
    intro hok
    obtain ⟨m, dc, dn, ps, its, ev, hm, hdc, hdn, hps, hits, hev, hpok, hiok⟩ :=
      validate_data_ok _ _ _ hok
    rw [hitems] at hits
    injection hits with hits
    subst hits
    have := validate_items_priceOk _ hiok bad hmem
    rw [hbad] at this
    exact absurd this (by simp)
  · intro hok
    obtain ⟨m, dc, dn, ps, its, ev, hm, hdc, hdn, hps, hits, hev, hpok, hiok⟩ :=
      validate_data_ok _ _ _ hok
    rw [hitems] at hits
    injection hits with hits
    subst hits
    obtain ⟨nad, hnad⟩ := partySegs_of_validate _ ps hpok
    obtain ⟨segs, total, hsegs⟩ := encode_items_of_validate items hiok 1
    unfold generate_edi_segments
    rw [hm, hev, hdc, hdn, hps, hitems]
    unfold getKey
    dsimp only
    rw [hnad, hsegs]
    exact ⟨_, _, rfl⟩

/-- Witness for C10 at a concrete record with a bad-price item: the public
entry point returns empty output instead of skipping the item. -/
theorem claim_C10_witness : generate_pricat "20230101" c10data = ("", false) :=
  (claim_C10_skip_path_unreachable "20230101" c10data
      [⟨some "P1", some "W", some "oops", none, none⟩] rfl).1
    ⟨⟨some "P1", some "W", some "oops", none, none⟩, by simp, rfl⟩
